import Mathlib

/-!
Shallow embedding of `zkevm-circuits/src/evm_circuit/execution/memory_copy.rs`
(the CopyToMemory gadget): witness data model, the test trace generator
(`make_memory_copy_step` / `make_memory_copy_steps`), the byte-reconstruction
loop of `assign_exec_step`, and the row constraint set of `configure`.
Gadget internals that live outside this file in the repository
(BufferReaderGadget, ComparisonGadget, ConstraintBuilder) are modelled from
the specification and marked as such.
-/

/-- The max number of bytes that can be copied in a step (source constant). -/
def MAX_COPY_BYTES : Nat := 71

instance : NeZero MAX_COPY_BYTES := ⟨by decide⟩

/-- A global read/write log entry, mirroring `Rw::Memory` as used here. -/
structure RwEntry where
  rw_counter : Nat
  is_write : Bool
  call_id : Nat
  memory_address : Nat
  byte : Nat
deriving DecidableEq, Repr, Inhabited

/-- The fields of `GadgetExtraData::CopyToMemory` (the enum's only variant). -/
structure CopyToMemoryData where
  src_addr : Nat
  dst_addr : Nat
  bytes_left : Nat
  src_addr_end : Nat
  from_tx : Bool
  selectors : List Nat
deriving DecidableEq, Repr, Inhabited

/-- The fields of `ExecStep` that the copy gadget reads or the generator sets. -/
structure ExecStep where
  rw_indices : List Nat
  rw_counter : Nat
  program_counter : Nat
  stack_pointer : Nat
  memory_size : Nat
  extra_data : Option CopyToMemoryData
deriving DecidableEq, Repr, Inhabited

/-- The fields of `Transaction` that `assign_exec_step` reads. -/
structure Transaction where
  id : Nat
  call_data : List Nat
deriving DecidableEq, Repr, Inhabited

/-- The cell values `assign_exec_step` writes for one row. -/
structure AssignedRow where
  src_addr : Nat
  dst_addr : Nat
  bytes_left : Nat
  src_addr_end : Nat
  from_tx : Nat
  tx_id : Nat
  bytes : List Nat
  selectors : List Nat
  num_bytes_copied : Nat
deriving DecidableEq, Repr, Inhabited

/-- The `bytes_map` of `make_memory_copy_steps`: address to buffer byte. -/
def bytes_map_of (buffer : List Nat) (buffer_addr : Nat) : Nat → Nat :=
  fun addr => buffer.getD (addr - buffer_addr) 0

/-- Body of the per-position loop of `make_memory_copy_step`: accumulates
(selectors, pushed log entries, rw_offset) exactly as the source loop does. -/
def copy_step_body (call_id src_addr dst_addr src_addr_end bytes_left : Nat)
    (from_tx : Bool) (rw_counter : Nat) (bytes_map : Nat → Nat)
    (acc : List Nat × List RwEntry × Nat) (idx : Nat) :
    List Nat × List RwEntry × Nat :=
  let sels := acc.1
  let pushed := acc.2.1
  let off := acc.2.2
  if idx < bytes_left then
    let addr := src_addr + idx
    if addr < src_addr_end then
      if from_tx then
        (sels ++ [1],
         pushed ++ [⟨rw_counter + off, true, call_id, dst_addr + idx, bytes_map addr⟩],
         off + 1)
      else
        (sels ++ [1],
         pushed ++ [⟨rw_counter + off, false, call_id, addr, bytes_map addr⟩,
                    ⟨rw_counter + off + 1, true, call_id, dst_addr + idx, bytes_map addr⟩],
         off + 2)
    else
      (sels ++ [1],
       pushed ++ [⟨rw_counter + off, true, call_id, dst_addr + idx, 0⟩],
       off + 1)
  else
    (sels ++ [0], pushed, off)

/-- The test trace generator `make_memory_copy_step`: returns the step,
the rw_offset, and the extended global log. -/
def make_memory_copy_step (call_id src_addr dst_addr src_addr_end : Nat)
    (bytes_left : Nat) (from_tx : Bool) (program_counter stack_pointer memory_size : Nat)
    (rw_counter : Nat) (rws : List RwEntry) (bytes_map : Nat → Nat) :
    ExecStep × Nat × List RwEntry :=
  let r := (List.range MAX_COPY_BYTES).foldl
    (copy_step_body call_id src_addr dst_addr src_addr_end bytes_left from_tx
      rw_counter bytes_map) ([], [], 0)
  let step : ExecStep :=
    { rw_indices := List.range' rws.length r.2.1.length
      rw_counter := rw_counter
      program_counter := program_counter
      stack_pointer := stack_pointer
      memory_size := memory_size
      extra_data := some ⟨src_addr, dst_addr, bytes_left, src_addr_end, from_tx, r.1⟩ }
  (step, r.2.2, rws ++ r.2.1)

/-- The loop of `make_memory_copy_steps`, with explicit accumulators for the
step list, the global log and the rw counter. -/
def make_memory_copy_steps_go (call_id : Nat) (buffer : List Nat)
    (buffer_addr src_addr dst_addr : Nat) (length : Nat) (from_tx : Bool)
    (program_counter stack_pointer memory_size : Nat)
    (rw_counter : Nat) (rws : List RwEntry) (steps : List ExecStep)
    (copied : Nat) : List ExecStep × List RwEntry × Nat :=
  if _h : copied < length then
    let p := make_memory_copy_step call_id (src_addr + copied) (dst_addr + copied)
      (buffer_addr + buffer.length) (length - copied) from_tx
      program_counter stack_pointer memory_size rw_counter rws
      (bytes_map_of buffer buffer_addr)
    make_memory_copy_steps_go call_id buffer buffer_addr src_addr dst_addr length
      from_tx program_counter stack_pointer memory_size
      (rw_counter + p.2.1) p.2.2 (steps ++ [p.1]) (copied + MAX_COPY_BYTES)
  else
    (steps, rws, rw_counter)
termination_by length - copied
decreasing_by
  simp only [MAX_COPY_BYTES]
  omega

/-- The test trace generator `make_memory_copy_steps` (loop started at 0). -/
def make_memory_copy_steps (call_id : Nat) (buffer : List Nat)
    (buffer_addr src_addr dst_addr : Nat) (length : Nat) (from_tx : Bool)
    (program_counter stack_pointer memory_size : Nat)
    (rw_counter : Nat) (rws : List RwEntry) (steps : List ExecStep) :
    List ExecStep × List RwEntry × Nat :=
  make_memory_copy_steps_go call_id buffer buffer_addr src_addr dst_addr length
    from_tx program_counter stack_pointer memory_size rw_counter rws steps 0

/-- The `bytes_left` recorded in a step's extra data. -/
def stepBytesLeft (s : ExecStep) : Nat :=
  match s.extra_data with
  | some d => d.bytes_left
  | none => 0

/-- The selectors recorded in a step's extra data. -/
def stepSelectors (s : ExecStep) : List Nat :=
  match s.extra_data with
  | some d => d.selectors
  | none => []

/-- The per-row copied count, as `assign_exec_step` computes it:
`selectors.iter().fold(0, |acc, s| acc + s)`. -/
def stepCopied (s : ExecStep) : Nat :=
  (stepSelectors s).foldl (fun acc x => acc + x) 0

/-- The byte-reconstruction loop of `assign_exec_step` (source lines 205-224):
walks the selectors, consuming global-log entries through `rw_indices` with a
single shared index `rw_idx`; a failed `assert!` or an out-of-range log index
is a panic, modelled as `none`. In the from-memory branch the source
increments `rw_idx` first and then indexes (`rw_idx += 1;
block.rws[step.rw_indices[rw_idx]]`). -/
def reconstruct_go (src_addr src_addr_end : Nat) (from_tx : Bool)
    (call_data : List Nat) (rws : List RwEntry) (rw_indices : List Nat) :
    List Nat → Nat → Nat → Option (List Nat)
  | [], _, _ => some []
  | s :: rest, idx, rw_idx =>
    let addr := src_addr + idx
    let br : Option (Nat × Nat) :=
      if s = 1 ∧ addr < src_addr_end then
        if from_tx then
          if addr < call_data.length then some (call_data.getD addr 0, rw_idx)
          else none
        else
          match rw_indices[rw_idx + 1]?.bind (fun a => rws[a]?) with
          | some e => some (e.byte, rw_idx + 1)
          | none => none
      else some (0, rw_idx)
    match br with
    | none => none
    | some (b, rw1) =>
      let rw2 := if s = 1 then rw1 + 1 else rw1
      match reconstruct_go src_addr src_addr_end from_tx call_data rws rw_indices
          rest (idx + 1) rw2 with
      | none => none
      | some bs => some (b :: bs)

/-- Modelled from the spec: the replay order the specification describes for
witness reconstruction (missing from src/ as an implementation; the source's
loop is `reconstruct_go`). For each active in-bound position the byte is taken
from the log entry at the current shared index (the entry emitted for that
position's read), after which the index advances past the read; the trailing
advance for the write is unchanged. -/
def spec_replay_go (src_addr src_addr_end : Nat) (from_tx : Bool)
    (call_data : List Nat) (rws : List RwEntry) (rw_indices : List Nat) :
    List Nat → Nat → Nat → Option (List Nat)
  | [], _, _ => some []
  | s :: rest, idx, rw_idx =>
    let addr := src_addr + idx
    let br : Option (Nat × Nat) :=
      if s = 1 ∧ addr < src_addr_end then
        if from_tx then
          if addr < call_data.length then some (call_data.getD addr 0, rw_idx)
          else none
        else
          match rw_indices[rw_idx]?.bind (fun a => rws[a]?) with
          | some e => some (e.byte, rw_idx + 1)
          | none => none
      else some (0, rw_idx)
    match br with
    | none => none
    | some (b, rw1) =>
      let rw2 := if s = 1 then rw1 + 1 else rw1
      match spec_replay_go src_addr src_addr_end from_tx call_data rws rw_indices
          rest (idx + 1) rw2 with
      | none => none
      | some bs => some (b :: bs)

/-- The gadget's `assign_exec_step`: `none` models a panic (the `unwrap` on
absent extra data, the `assert_eq!` on the selectors length, or a panic inside
the reconstruction loop); `some row` models `Ok` with the written cells. -/
def assign_exec_step (block_rws : List RwEntry) (tx : Transaction)
    (step : ExecStep) : Option AssignedRow :=
  match step.extra_data with
  | none => none
  | some d =>
    if d.selectors.length = MAX_COPY_BYTES then
      match reconstruct_go d.src_addr d.src_addr_end d.from_tx tx.call_data
          block_rws step.rw_indices d.selectors 0 0 with
      | none => none
      | some bytes =>
        some { src_addr := d.src_addr
               dst_addr := d.dst_addr
               bytes_left := d.bytes_left
               src_addr_end := d.src_addr_end
               from_tx := if d.from_tx then 1 else 0
               tx_id := tx.id
               bytes := bytes
               selectors := d.selectors
               num_bytes_copied := d.selectors.foldl (fun acc x => acc + x) 0 }
    else none

/-- How many log-slice positions the reconstruction loop advances over while
processing a selector prefix starting at position `idx` (one for each active
in-bound from-memory read, one for each active write). -/
def consumed_before (src_addr src_addr_end : Nat) (from_tx : Bool) :
    List Nat → Nat → Nat
  | [], _ => 0
  | s :: rest, idx =>
    (if s = 1 ∧ src_addr + idx < src_addr_end ∧ from_tx = false then 1 else 0) +
    (if s = 1 then 1 else 0) +
    consumed_before src_addr src_addr_end from_tx rest (idx + 1)

/-- Modelled from the spec: the row cells the `configure` constraints range
over. `selectors`, `bytes` and `readFlag` stand for the BufferReaderGadget
cells (that gadget is not under src/); `lt` and `finished` are the two
ComparisonGadget outputs. All cells are integers standing for field values. -/
structure ZRow where
  src_addr : Int
  dst_addr : Int
  bytes_left : Int
  src_addr_end : Int
  from_tx : Int
  tx_id : Int
  selectors : Fin MAX_COPY_BYTES → Int
  bytes : Fin MAX_COPY_BYTES → Int
  readFlag : Fin MAX_COPY_BYTES → Int
  lt : Int
  finished : Int

/-- The copied size of a row: `buffer_reader.num_bytes()`, the count of
active positions (modelled from the spec for BufferReaderGadget). -/
def numBytes (w : ZRow) : Int := ∑ i : Fin MAX_COPY_BYTES, w.selectors i

/-- Modelled from the spec: BufferReaderGadget soundness for a satisfying
witness. Selectors are boolean; `read_flag(i)` holds exactly for an active
position whose absolute source address is below `src_addr_end`; a byte with
`read_flag(i)` false is forced to 0. -/
def bufferReaderOk (w : ZRow) : Prop :=
  (∀ i, w.selectors i = 0 ∨ w.selectors i = 1) ∧
  (∀ i : Fin MAX_COPY_BYTES,
    w.readFlag i =
      if w.selectors i = 1 ∧ w.src_addr + (i.val : Int) < w.src_addr_end then 1 else 0) ∧
  (∀ i, w.readFlag i = 0 → w.bytes i = 0)

/-- Modelled from the spec: ComparisonGadget soundness, with
`A = copied_size` and `B = bytes_left`; exactly one of less / equal / greater
holds, `lt` and `finished` being the first two indicators. -/
def comparatorOk (w : ZRow) : Prop :=
  (w.lt = if numBytes w < w.bytes_left then 1 else 0) ∧
  (w.finished = if numBytes w = w.bytes_left then 1 else 0)

/-- The `from_tx` cell is queried with `cb.query_bool()`. -/
def fromTxBool (w : ZRow) : Prop := w.from_tx = 0 ∨ w.from_tx = 1

/-- The constraint emitted at source lines 100-103 under the name
`Constrain num_bytes <= bytes_left`: the product of the two comparator
outputs must vanish. -/
def finishConstraint (w : ZRow) : Prop := w.lt * w.finished = 0

/-- One table-membership assertion of the copy row. -/
inductive Assertion where
  | memRead (addr val : Int)
  | txRead (tx_id index val : Int)
  | memWrite (addr val : Int)
deriving DecidableEq, Repr

/-- The assertions position `i` emits (source lines 64-91): a memory read
gated by `from_memory * read_flag(i)`, a call-data read gated by
`from_tx * read_flag(i)`, a memory write gated by `has_data(i) = selectors i`;
a gate equal to zero emits nothing. -/
def posAssertions (w : ZRow) (i : Fin MAX_COPY_BYTES) : List Assertion :=
  (if (1 - w.from_tx) * w.readFlag i ≠ 0 then
    [Assertion.memRead (w.src_addr + (i.val : Int)) (w.bytes i)] else []) ++
  (if w.from_tx * w.readFlag i ≠ 0 then
    [Assertion.txRead w.tx_id (w.src_addr + (i.val : Int)) (w.bytes i)] else []) ++
  (if w.selectors i ≠ 0 then
    [Assertion.memWrite (w.dst_addr + (i.val : Int)) (w.bytes i)] else [])

/-- Whether position `i` emits any source-read assertion (memory or
call-data). -/
def sourceReadEmitted (w : ZRow) (i : Fin MAX_COPY_BYTES) : Prop :=
  (1 - w.from_tx) * w.readFlag i ≠ 0 ∨ w.from_tx * w.readFlag i ≠ 0

/-- The next-row cells the continuation constraints mention.
`is_copy_to_memory` models the next step's CopyToMemory execution-state
indicator (the state selector is outside src/, modelled from the spec). -/
structure ZNext where
  is_copy_to_memory : Int
  src_addr : Int
  dst_addr : Int
  bytes_left : Int
  src_addr_end : Int
  from_tx : Int
  tx_id : Int

/-- The continuation constraints of source lines 105-148: each equality of
`constrain_next_step` is gated by the condition `1 - finished`, as is the
requirement that the next step is a CopyToMemory step. -/
def continuationOk (w : ZRow) (n : ZNext) : Prop :=
  (1 - w.finished) * (1 - n.is_copy_to_memory) = 0 ∧
  (1 - w.finished) * (n.src_addr - (w.src_addr + numBytes w)) = 0 ∧
  (1 - w.finished) * (n.dst_addr - (w.dst_addr + numBytes w)) = 0 ∧
  (1 - w.finished) * (n.bytes_left + numBytes w - w.bytes_left) = 0 ∧
  (1 - w.finished) * (n.src_addr_end - w.src_addr_end) = 0 ∧
  (1 - w.finished) * (n.from_tx - w.from_tx) = 0 ∧
  (1 - w.finished) * (n.tx_id - w.tx_id) = 0

/-- The shared step-state fields the transition constraint ranges over. -/
structure StepState where
  rw_counter : Int
  program_counter : Int
  stack_pointer : Int
  call_id : Int
  memory_size : Int

/-- The rw-counter offset accumulated by the row: the sum of the gate
conditions of the emitted log assertions (modelled from the spec: the shared
counter advances by the number of assertions emitted this row). -/
def rwCounterDelta (w : ZRow) : Int :=
  ∑ i : Fin MAX_COPY_BYTES,
    ((1 - w.from_tx) * w.readFlag i + w.from_tx * w.readFlag i + w.selectors i)

/-- The step-state transition of source lines 150-155, modelled from the
spec for `StepStateTransition`: `rw_counter` moves by `Delta(offset)` and
every other shared field keeps its default `Same` transition. -/
def stepTransitionOk (w : ZRow) (cur next : StepState) : Prop :=
  next.rw_counter = cur.rw_counter + rwCounterDelta w ∧
  next.program_counter = cur.program_counter ∧
  next.stack_pointer = cur.stack_pointer ∧
  next.call_id = cur.call_id ∧
  next.memory_size = cur.memory_size

lemma copy_step_body_fst (call_id src_addr dst_addr src_addr_end bytes_left : Nat)
    (from_tx : Bool) (rw_counter : Nat) (bytes_map : Nat → Nat)
    (acc : List Nat × List RwEntry × Nat) (idx : Nat) :
    (copy_step_body call_id src_addr dst_addr src_addr_end bytes_left from_tx
      rw_counter bytes_map acc idx).1 =
    acc.1 ++ [if idx < bytes_left then 1 else 0] := by
  unfold copy_step_body
  by_cases h1 : idx < bytes_left
  · simp only [if_pos h1]
    by_cases h2 : src_addr + idx < src_addr_end
    · cases from_tx <;> simp [h2]
    · simp [h2]
  · simp [h1]

lemma foldl_copy_step_fst (call_id src_addr dst_addr src_addr_end bytes_left : Nat)
    (from_tx : Bool) (rw_counter : Nat) (bytes_map : Nat → Nat) (l : List Nat) :
    ∀ acc : List Nat × List RwEntry × Nat,
    (l.foldl (copy_step_body call_id src_addr dst_addr src_addr_end bytes_left
      from_tx rw_counter bytes_map) acc).1 =
    acc.1 ++ l.map (fun i => if i < bytes_left then 1 else 0) := by
  induction l with
  | nil => intro acc; simp
  | cons x xs ih =>
    intro acc
    simp only [List.foldl_cons, List.map_cons]
    rw [ih, copy_step_body_fst]
    simp

lemma make_memory_copy_step_selectors (call_id src_addr dst_addr src_addr_end
    bytes_left : Nat) (from_tx : Bool) (pc sp ms rc : Nat) (rws : List RwEntry)
    (bytes_map : Nat → Nat) :
    stepSelectors (make_memory_copy_step call_id src_addr dst_addr src_addr_end
      bytes_left from_tx pc sp ms rc rws bytes_map).1 =
    (List.range MAX_COPY_BYTES).map (fun i => if i < bytes_left then 1 else 0) := by
  simp only [make_memory_copy_step, stepSelectors]
  rw [foldl_copy_step_fst]
  simp

lemma foldl_add_eq (l : List Nat) : ∀ a : Nat,
    l.foldl (fun acc x => acc + x) a = a + l.sum := by
  induction l with
  | nil => intro a; simp
  | cons x xs ih => intro a; simp [ih, Nat.add_assoc]

lemma sum_range_indicator (bytes_left : Nat) : ∀ n : Nat,
    ((List.range n).map (fun i => if i < bytes_left then 1 else 0)).sum =
      min bytes_left n := by
  intro n
  induction n with
  | zero => simp
  | succ m ih =>
    rw [List.range_succ, List.map_append, List.sum_append, ih]
    by_cases h : m < bytes_left <;> simp [h] <;> omega

lemma getD_map_range (f : Nat → Nat) (n i : Nat) (hi : i < n) :
    ((List.range n).map f).getD i 0 = f i := by
  rw [List.getD_eq_getElem?_getD]
  simp [List.getElem?_map, List.getElem?_range hi]

lemma make_memory_copy_step_bytes_left (call_id src_addr dst_addr src_addr_end
    bytes_left : Nat) (from_tx : Bool) (pc sp ms rc : Nat) (rws : List RwEntry)
    (bytes_map : Nat → Nat) :
    stepBytesLeft (make_memory_copy_step call_id src_addr dst_addr src_addr_end
      bytes_left from_tx pc sp ms rc rws bytes_map).1 = bytes_left := rfl

lemma make_memory_copy_step_copied (call_id src_addr dst_addr src_addr_end
    bytes_left : Nat) (from_tx : Bool) (pc sp ms rc : Nat) (rws : List RwEntry)
    (bytes_map : Nat → Nat) :
    stepCopied (make_memory_copy_step call_id src_addr dst_addr src_addr_end
      bytes_left from_tx pc sp ms rc rws bytes_map).1 =
      min bytes_left MAX_COPY_BYTES := by
  rw [stepCopied, make_memory_copy_step_selectors, foldl_add_eq,
    sum_range_indicator]
  simp

/-- C7: for every generated row, `selectors[i] == 1` exactly when
`i < bytes_left` (for `i` below CAPACITY), hence the per-row copied count —
the selector sum that `assign_exec_step` folds — equals
`min(bytes_left, CAPACITY)` and never exceeds CAPACITY. -/
theorem copy_row_selectors_spec (call_id src_addr dst_addr src_addr_end
    bytes_left : Nat) (from_tx : Bool) (pc sp ms rc : Nat) (rws : List RwEntry)
    (bytes_map : Nat → Nat) :
    (stepSelectors (make_memory_copy_step call_id src_addr dst_addr src_addr_end
        bytes_left from_tx pc sp ms rc rws bytes_map).1).length = MAX_COPY_BYTES ∧
    (∀ i, i < MAX_COPY_BYTES →
      ((stepSelectors (make_memory_copy_step call_id src_addr dst_addr src_addr_end
          bytes_left from_tx pc sp ms rc rws bytes_map).1).getD i 0 = 1 ↔
        i < bytes_left)) ∧
    stepCopied (make_memory_copy_step call_id src_addr dst_addr src_addr_end
        bytes_left from_tx pc sp ms rc rws bytes_map).1 =
      min bytes_left MAX_COPY_BYTES ∧
    stepCopied (make_memory_copy_step call_id src_addr dst_addr src_addr_end
        bytes_left from_tx pc sp ms rc rws bytes_map).1 ≤ MAX_COPY_BYTES := by
  refine ⟨?_, ?_, ?_, ?_⟩
  · rw [make_memory_copy_step_selectors]; simp
  · intro i hi
    rw [make_memory_copy_step_selectors, getD_map_range _ _ _ hi]
    by_cases h : i < bytes_left <;> simp [h]
  · exact make_memory_copy_step_copied _ _ _ _ _ _ _ _ _ _ _ _
  · rw [make_memory_copy_step_copied]; omega

/-- Witness for C7 at a concrete row: capacity 71, `bytes_left = 5`,
position 3 is active, and the copied count is 5. -/
theorem copy_row_selectors_spec_witness :
    ((stepSelectors (make_memory_copy_step 1 64 160 112 5 false 0 1024 8 1 []
        (fun _ => 0)).1).getD 3 0 = 1 ↔ 3 < 5) ∧
    stepCopied (make_memory_copy_step 1 64 160 112 5 false 0 1024 8 1 []
        (fun _ => 0)).1 = min 5 MAX_COPY_BYTES :=
  ⟨(copy_row_selectors_spec 1 64 160 112 5 false 0 1024 8 1 []
      (fun _ => 0)).2.1 3 (by decide),
   (copy_row_selectors_spec 1 64 160 112 5 false 0 1024 8 1 []
      (fun _ => 0)).2.2.1⟩
lemma steps_go_spec (call_id : Nat) (buffer : List Nat)
    (buffer_addr src_addr dst_addr : Nat) (length : Nat) (from_tx : Bool)
    (pc sp ms : Nat) :
    ∀ rem rw_counter rws acc copied, copied < length → rem = length - copied →
    ∃ new : List ExecStep,
      (make_memory_copy_steps_go call_id buffer buffer_addr src_addr dst_addr
        length from_tx pc sp ms rw_counter rws acc copied).1 = acc ++ new ∧
      new.length = (rem + 70) / 71 ∧
      (∀ j, j < new.length → stepBytesLeft (new.getD j default) = rem - 71 * j) ∧
      (∀ j, j + 1 < new.length → stepCopied (new.getD j default) = 71) ∧
      stepCopied (new.getD (new.length - 1) default) =
        stepBytesLeft (new.getD (new.length - 1) default) := by
  intro rem
  induction rem using Nat.strong_induction_on with
  | _ rem ih =>
    intro rw_counter rws acc copied hcl hrem
    rw [make_memory_copy_steps_go, dif_pos hcl]
    by_cases hrec : copied + MAX_COPY_BYTES < length
    · have hlt : rem - 71 < rem := by simp only [MAX_COPY_BYTES] at hrec; omega
      obtain ⟨new', heq', hlen', hbl', hcop', hlast'⟩ :=
        ih (rem - 71) hlt _ _ (acc ++ [(make_memory_copy_step call_id
          (src_addr + copied) (dst_addr + copied) (buffer_addr + buffer.length)
          (length - copied) from_tx pc sp ms rw_counter rws
          (bytes_map_of buffer buffer_addr)).1]) (copied + MAX_COPY_BYTES) hrec
        (by simp only [MAX_COPY_BYTES]; omega)
      refine ⟨(make_memory_copy_step call_id (src_addr + copied)
        (dst_addr + copied) (buffer_addr + buffer.length) (length - copied)
        from_tx pc sp ms rw_counter rws (bytes_map_of buffer buffer_addr)).1
        :: new', ?_, ?_, ?_, ?_, ?_⟩
      · rw [heq']; simp
      · have h71 : 71 ≤ rem - 1 := by simp only [MAX_COPY_BYTES] at hrec; omega
        simp only [List.length_cons, hlen']
        omega
      · intro j hj
        match j with
        | 0 =>
          simp only [List.getD_cons_zero, make_memory_copy_step_bytes_left]
          omega
        | Nat.succ k =>
          simp only [List.getD_cons_succ]
          have hk : k < new'.length := by
            simp only [List.length_cons] at hj; omega
          rw [hbl' k hk]
          simp only [MAX_COPY_BYTES] at hrec
          omega
      · intro j hj
        match j with
        | 0 =>
          simp only [List.getD_cons_zero, make_memory_copy_step_copied]
          simp only [MAX_COPY_BYTES] at hrec ⊢
          omega
        | Nat.succ k =>
          simp only [List.getD_cons_succ]
          exact hcop' k (by simp only [List.length_cons] at hj; omega)
      · have hpos : 1 ≤ new'.length := by
          rw [hlen']
          simp only [MAX_COPY_BYTES] at hrec
          omega
        obtain ⟨m, hm⟩ : ∃ m, new'.length = m + 1 := ⟨new'.length - 1, by omega⟩
        simp only [List.length_cons, Nat.add_sub_cancel, hm,
          List.getD_cons_succ]
        have hm1 : new'.length - 1 = m := by omega
        rw [hm1] at hlast'
        exact hlast'
    · refine ⟨[(make_memory_copy_step call_id (src_addr + copied)
        (dst_addr + copied) (buffer_addr + buffer.length) (length - copied)
        from_tx pc sp ms rw_counter rws (bytes_map_of buffer buffer_addr)).1],
        ?_, ?_, ?_, ?_, ?_⟩
      · rw [make_memory_copy_steps_go, dif_neg hrec]
      · simp only [List.length_cons, List.length_nil]
        simp only [MAX_COPY_BYTES] at hrec
        omega
      · intro j hj
        simp only [List.length_cons, List.length_nil] at hj
        have hj0 : j = 0 := by omega
        subst hj0
        simp only [List.getD_cons_zero, make_memory_copy_step_bytes_left]
        omega
      · intro j hj
        simp only [List.length_cons, List.length_nil] at hj
        omega
      · simp only [List.length_cons, List.length_nil, Nat.add_sub_cancel,
          List.getD_cons_zero, make_memory_copy_step_copied,
          make_memory_copy_step_bytes_left]
        simp only [MAX_COPY_BYTES] at hrec ⊢
        omega

/-- The step list produced by the trace generator, starting from an empty
step accumulator. -/
def copyTraceSteps (call_id : Nat) (buffer : List Nat)
    (buffer_addr src_addr dst_addr : Nat) (length : Nat) (from_tx : Bool)
    (pc sp ms rc : Nat) (rws : List RwEntry) : List ExecStep :=
  (make_memory_copy_steps call_id buffer buffer_addr src_addr dst_addr length
    from_tx pc sp ms rc rws []).1

/-- C6: for a copy of total length `L > 0` with per-row capacity 71, the
trace generator produces exactly `ceil(L / 71) = (L + 70) / 71` rows, row `j`
carries `bytes_left = L - 71 * j`, every non-final row copies exactly 71
bytes, and on the final row the copied count equals `bytes_left`, so their
difference is 0. -/
theorem copy_trace_row_count (call_id : Nat) (buffer : List Nat)
    (buffer_addr src_addr dst_addr L : Nat) (from_tx : Bool) (pc sp ms rc : Nat)
    (rws : List RwEntry) (hL : 0 < L) :
    (copyTraceSteps call_id buffer buffer_addr src_addr dst_addr L from_tx
        pc sp ms rc rws).length = (L + 70) / 71 ∧
    (∀ j, j < (copyTraceSteps call_id buffer buffer_addr src_addr dst_addr L
        from_tx pc sp ms rc rws).length →
      stepBytesLeft ((copyTraceSteps call_id buffer buffer_addr src_addr dst_addr
        L from_tx pc sp ms rc rws).getD j default) = L - 71 * j) ∧
    (∀ j, j + 1 < (copyTraceSteps call_id buffer buffer_addr src_addr dst_addr L
        from_tx pc sp ms rc rws).length →
      stepCopied ((copyTraceSteps call_id buffer buffer_addr src_addr dst_addr
        L from_tx pc sp ms rc rws).getD j default) = 71) ∧
    stepCopied ((copyTraceSteps call_id buffer buffer_addr src_addr dst_addr L
        from_tx pc sp ms rc rws).getD
        ((copyTraceSteps call_id buffer buffer_addr src_addr dst_addr L from_tx
          pc sp ms rc rws).length - 1) default) =
      stepBytesLeft ((copyTraceSteps call_id buffer buffer_addr src_addr dst_addr
        L from_tx pc sp ms rc rws).getD
        ((copyTraceSteps call_id buffer buffer_addr src_addr dst_addr L from_tx
          pc sp ms rc rws).length - 1) default) ∧
    stepBytesLeft ((copyTraceSteps call_id buffer buffer_addr src_addr dst_addr
        L from_tx pc sp ms rc rws).getD
        ((copyTraceSteps call_id buffer buffer_addr src_addr dst_addr L from_tx
          pc sp ms rc rws).length - 1) default) -
      stepCopied ((copyTraceSteps call_id buffer buffer_addr src_addr dst_addr L
        from_tx pc sp ms rc rws).getD
        ((copyTraceSteps call_id buffer buffer_addr src_addr dst_addr L from_tx
          pc sp ms rc rws).length - 1) default) = 0 := by
  obtain ⟨new, heq, hlen, hbl, hcop, hlast⟩ :=
    steps_go_spec call_id buffer buffer_addr src_addr dst_addr L from_tx
      pc sp ms L rc rws [] 0 hL (by omega)
  have hout : copyTraceSteps call_id buffer buffer_addr src_addr dst_addr L
      from_tx pc sp ms rc rws = new := by
    rw [copyTraceSteps, make_memory_copy_steps, heq]
    simp
  rw [hout, hlen]
  refine ⟨rfl, ?_, ?_, ?_, ?_⟩
  · intro j hj
    rw [← hlen] at hj
    have := hbl j hj
    omega
  · intro j hj
    rw [← hlen] at hj
    exact hcop j hj
  · rw [← hlen]
    exact hlast
  · rw [← hlen]
    omega

/-- Witness for C6, the spec's concrete scenario: from-memory copy with
`src = 0x20`, `end = 0x80`, `len = 80` gives two rows; row 0 has
`bytes_left = 80` and copies 71 (not finished), row 1 has `bytes_left = 9`
and copies 9 (finished). -/
theorem copy_trace_row_count_witness :
    (copyTraceSteps 1 (List.replicate 96 0) 32 32 160 80 false 0 1024 8 1
      []).length = 2 ∧
    stepBytesLeft ((copyTraceSteps 1 (List.replicate 96 0) 32 32 160 80 false 0
      1024 8 1 []).getD 0 default) = 80 ∧
    stepCopied ((copyTraceSteps 1 (List.replicate 96 0) 32 32 160 80 false 0
      1024 8 1 []).getD 0 default) = 71 ∧
    stepCopied ((copyTraceSteps 1 (List.replicate 96 0) 32 32 160 80 false 0
      1024 8 1 []).getD 0 default) ≠
      stepBytesLeft ((copyTraceSteps 1 (List.replicate 96 0) 32 32 160 80 false
        0 1024 8 1 []).getD 0 default) ∧
    stepBytesLeft ((copyTraceSteps 1 (List.replicate 96 0) 32 32 160 80 false 0
      1024 8 1 []).getD 1 default) = 9 ∧
    stepCopied ((copyTraceSteps 1 (List.replicate 96 0) 32 32 160 80 false 0
      1024 8 1 []).getD 1 default) = 9 ∧
    stepCopied ((copyTraceSteps 1 (List.replicate 96 0) 32 32 160 80 false 0
      1024 8 1 []).getD 1 default) =
      stepBytesLeft ((copyTraceSteps 1 (List.replicate 96 0) 32 32 160 80 false
        0 1024 8 1 []).getD 1 default) := by
  have h := copy_trace_row_count 1 (List.replicate 96 0) 32 32 160 80 false 0
    1024 8 1 [] (by omega)
  have hlen : (copyTraceSteps 1 (List.replicate 96 0) 32 32 160 80 false 0 1024
      8 1 []).length = 2 := by rw [h.1]
  have hb0 : stepBytesLeft ((copyTraceSteps 1 (List.replicate 96 0) 32 32 160 80
      false 0 1024 8 1 []).getD 0 default) = 80 := by
    have := h.2.1 0 (by omega)
    omega
  have hc0 : stepCopied ((copyTraceSteps 1 (List.replicate 96 0) 32 32 160 80
      false 0 1024 8 1 []).getD 0 default) = 71 := h.2.2.1 0 (by omega)
  have hb1 : stepBytesLeft ((copyTraceSteps 1 (List.replicate 96 0) 32 32 160 80
      false 0 1024 8 1 []).getD 1 default) = 9 := by
    have := h.2.1 1 (by omega)
    omega
  have hc1 : stepCopied ((copyTraceSteps 1 (List.replicate 96 0) 32 32 160 80
      false 0 1024 8 1 []).getD 1 default) =
      stepBytesLeft ((copyTraceSteps 1 (List.replicate 96 0) 32 32 160 80 false
        0 1024 8 1 []).getD 1 default) := by
    have := h.2.2.2.1
    rw [hlen] at this
    exact this
  exact ⟨hlen, hb0, hc0, by omega, hb1, by omega, hc1⟩

lemma rg_cons_skip (src_addr src_addr_end : Nat) (from_tx : Bool)
    (call_data : List Nat) (rws : List RwEntry) (rw_indices : List Nat)
    (s : Nat) (rest : List Nat) (idx rw_idx : Nat)
    (hs : ¬(s = 1 ∧ src_addr + idx < src_addr_end)) :
    reconstruct_go src_addr src_addr_end from_tx call_data rws rw_indices
      (s :: rest) idx rw_idx =
    (reconstruct_go src_addr src_addr_end from_tx call_data rws rw_indices
      rest (idx + 1) (if s = 1 then rw_idx + 1 else rw_idx)).map
      (fun bs => 0 :: bs) := by
  simp only [reconstruct_go, if_neg hs]
  cases reconstruct_go src_addr src_addr_end from_tx call_data rws rw_indices
    rest (idx + 1) (if s = 1 then rw_idx + 1 else rw_idx) <;> rfl

lemma rg_cons_tx_ok (src_addr src_addr_end : Nat)
    (call_data : List Nat) (rws : List RwEntry) (rw_indices : List Nat)
    (s : Nat) (rest : List Nat) (idx rw_idx : Nat)
    (hs : s = 1 ∧ src_addr + idx < src_addr_end)
    (hcd : src_addr + idx < call_data.length) :
    reconstruct_go src_addr src_addr_end true call_data rws rw_indices
      (s :: rest) idx rw_idx =
    (reconstruct_go src_addr src_addr_end true call_data rws rw_indices
      rest (idx + 1) (rw_idx + 1)).map
      (fun bs => call_data.getD (src_addr + idx) 0 :: bs) := by
  obtain ⟨hs1, hs2⟩ := hs
  subst hs1
  simp only [reconstruct_go]
  rw [if_pos ⟨by trivial, hs2⟩]
  cases h : reconstruct_go src_addr src_addr_end true call_data rws rw_indices
    rest (idx + 1) (rw_idx + 1) <;> simp [hcd, h]

lemma rg_cons_tx_bad (src_addr src_addr_end : Nat)
    (call_data : List Nat) (rws : List RwEntry) (rw_indices : List Nat)
    (s : Nat) (rest : List Nat) (idx rw_idx : Nat)
    (hs : s = 1 ∧ src_addr + idx < src_addr_end)
    (hcd : ¬(src_addr + idx < call_data.length)) :
    reconstruct_go src_addr src_addr_end true call_data rws rw_indices
      (s :: rest) idx rw_idx = none := by
  obtain ⟨hs1, hs2⟩ := hs
  subst hs1
  simp only [reconstruct_go]
  rw [if_pos ⟨by trivial, hs2⟩]
  simp [hcd]

lemma rg_cons_mem_ok (src_addr src_addr_end : Nat)
    (call_data : List Nat) (rws : List RwEntry) (rw_indices : List Nat)
    (s : Nat) (rest : List Nat) (idx rw_idx : Nat) (en : RwEntry)
    (hs : s = 1 ∧ src_addr + idx < src_addr_end)
    (hen : rw_indices[rw_idx + 1]?.bind (fun a => rws[a]?) = some en) :
    reconstruct_go src_addr src_addr_end false call_data rws rw_indices
      (s :: rest) idx rw_idx =
    (reconstruct_go src_addr src_addr_end false call_data rws rw_indices
      rest (idx + 1) (rw_idx + 2)).map
      (fun bs => en.byte :: bs) := by
  obtain ⟨hs1, hs2⟩ := hs
  subst hs1
  simp only [reconstruct_go]
  rw [if_pos ⟨by trivial, hs2⟩]
  cases h : reconstruct_go src_addr src_addr_end false call_data rws rw_indices
    rest (idx + 1) (rw_idx + 2) <;> simp [hen, h]

lemma rg_cons_mem_bad (src_addr src_addr_end : Nat)
    (call_data : List Nat) (rws : List RwEntry) (rw_indices : List Nat)
    (s : Nat) (rest : List Nat) (idx rw_idx : Nat)
    (hs : s = 1 ∧ src_addr + idx < src_addr_end)
    (hen : rw_indices[rw_idx + 1]?.bind (fun a => rws[a]?) = none) :
    reconstruct_go src_addr src_addr_end false call_data rws rw_indices
      (s :: rest) idx rw_idx = none := by
  obtain ⟨hs1, hs2⟩ := hs
  subst hs1
  simp only [reconstruct_go]
  rw [if_pos ⟨by trivial, hs2⟩]
  simp [hen]

lemma consumed_before_cons (src_addr src_addr_end : Nat) (from_tx : Bool)
    (s : Nat) (l : List Nat) (idx : Nat) :
    consumed_before src_addr src_addr_end from_tx (s :: l) idx =
    (if s = 1 ∧ src_addr + idx < src_addr_end ∧ from_tx = false then 1 else 0) +
    (if s = 1 then 1 else 0) +
    consumed_before src_addr src_addr_end from_tx l (idx + 1) := rfl

lemma reconstruct_go_fatal (src_addr src_addr_end : Nat) (ft : Bool)
    (call_data : List Nat) (rws : List RwEntry) (rw_indices : List Nat) :
    ∀ (sels : List Nat) (idx rw_idx k : Nat), k < sels.length →
    sels.getD k 0 = 1 → src_addr + (idx + k) < src_addr_end →
    ((ft = true ∧ call_data.length ≤ src_addr + (idx + k)) ∨
     (ft = false ∧
      rw_indices[rw_idx + consumed_before src_addr src_addr_end ft
        (sels.take k) idx + 1]?.bind (fun a => rws[a]?) = none)) →
    reconstruct_go src_addr src_addr_end ft call_data rws rw_indices
      sels idx rw_idx = none := by
  intro sels
  induction sels with
  | nil =>
    intro idx rw_idx k hk
    simp at hk
  | cons s rest ih =>
    intro idx rw_idx k hk hact hin hbad
    match k with
    | 0 =>
      simp only [List.getD_cons_zero] at hact
      have hin0 : src_addr + idx < src_addr_end := by omega
      rcases hbad with ⟨hft, hcd⟩ | ⟨hft, hnone⟩
      · subst hft
        exact rg_cons_tx_bad _ _ _ _ _ _ _ _ _ ⟨hact, hin0⟩ (by omega)
      · subst hft
        simp only [List.take_zero, consumed_before, Nat.add_zero] at hnone
        exact rg_cons_mem_bad _ _ _ _ _ _ _ _ _ ⟨hact, hin0⟩ hnone
    | Nat.succ k1 =>
      simp only [List.getD_cons_succ] at hact
      have hk1 : k1 < rest.length := by
        simp only [List.length_cons] at hk
        omega
      have hin1 : src_addr + (idx + 1 + k1) < src_addr_end := by omega
      by_cases hs : s = 1 ∧ src_addr + idx < src_addr_end
      · cases ft with
        | false =>
          cases hhead : rw_indices[rw_idx + 1]?.bind (fun a => rws[a]?) with
          | none =>
            exact rg_cons_mem_bad _ _ _ _ _ _ _ _ _ hs hhead
          | some en =>
            rw [rg_cons_mem_ok _ _ _ _ _ _ _ _ _ _ hs hhead]
            have hbad1 : (false = true ∧
                call_data.length ≤ src_addr + (idx + 1 + k1)) ∨
                (false = false ∧
                rw_indices[rw_idx + 2 + consumed_before src_addr src_addr_end
                  false (rest.take k1) (idx + 1) + 1]?.bind
                  (fun a => rws[a]?) = none) := by
              rcases hbad with ⟨hft, _⟩ | ⟨_, hnone⟩
              · cases hft
              · refine Or.inr ⟨rfl, ?_⟩
                have heq : rw_idx + consumed_before src_addr src_addr_end false
                    ((s :: rest).take (k1 + 1)) idx + 1 =
                    rw_idx + 2 + consumed_before src_addr src_addr_end false
                      (rest.take k1) (idx + 1) + 1 := by
                  rw [List.take_succ_cons, consumed_before_cons]
                  rw [if_pos ⟨hs.1, hs.2, rfl⟩, if_pos hs.1]
                  omega
                rw [heq] at hnone
                exact hnone
            rw [ih (idx + 1) (rw_idx + 2) k1 hk1 hact hin1 hbad1]
            rfl
        | true =>
          by_cases hcd : src_addr + idx < call_data.length
          · rw [rg_cons_tx_ok _ _ _ _ _ _ _ _ _ hs hcd]
            have hbad1 : (true = true ∧
                call_data.length ≤ src_addr + (idx + 1 + k1)) ∨
                (true = false ∧
                rw_indices[rw_idx + 1 + consumed_before src_addr src_addr_end
                  true (rest.take k1) (idx + 1) + 1]?.bind
                  (fun a => rws[a]?) = none) := by
              rcases hbad with ⟨_, hcd2⟩ | ⟨hft, _⟩
              · exact Or.inl ⟨rfl, by omega⟩
              · cases hft
            rw [ih (idx + 1) (rw_idx + 1) k1 hk1 hact hin1 hbad1]
            rfl
          · exact rg_cons_tx_bad _ _ _ _ _ _ _ _ _ hs hcd
      · rw [rg_cons_skip _ _ _ _ _ _ _ _ _ _ hs]
        have hbad1 : (ft = true ∧
            call_data.length ≤ src_addr + (idx + 1 + k1)) ∨
            (ft = false ∧
            rw_indices[(if s = 1 then rw_idx + 1 else rw_idx) +
              consumed_before src_addr src_addr_end ft
                (rest.take k1) (idx + 1) + 1]?.bind
              (fun a => rws[a]?) = none) := by
          rcases hbad with ⟨hft, hcd2⟩ | ⟨hft, hnone⟩
          · exact Or.inl ⟨hft, by omega⟩
          · refine Or.inr ⟨hft, ?_⟩
            have heq : rw_idx + consumed_before src_addr src_addr_end ft
                ((s :: rest).take (k1 + 1)) idx + 1 =
                (if s = 1 then rw_idx + 1 else rw_idx) +
                  consumed_before src_addr src_addr_end ft
                    (rest.take k1) (idx + 1) + 1 := by
              rw [List.take_succ_cons, consumed_before_cons]
              rw [if_neg (by tauto)]
              by_cases hs1 : s = 1
              · rw [if_pos hs1, if_pos hs1]
                omega
              · rw [if_neg hs1, if_neg hs1]
                omega
            rw [heq] at hnone
            exact hnone
        rw [ih (idx + 1) (if s = 1 then rw_idx + 1 else rw_idx) k1 hk1 hact
          hin1 hbad1]
        rfl

/-- C8: witness assignment aborts fatally (modelled as `none`, a panic with
no recovery) whenever some active in-bound position either is a call-data
position whose index reaches the call-data length, or is a from-memory
position whose consumed global-log entry does not exist (the log slice is
exhausted); the consumption index counted is the one the source actually
uses (one slot per active write plus one per in-bound from-memory read,
pre-incremented before the read access). -/
theorem assign_fatal_on_malformed_trace (block_rws : List RwEntry)
    (tx : Transaction) (step : ExecStep) (d : CopyToMemoryData) (k : Nat)
    (hd : step.extra_data = some d) (hlen : d.selectors.length = MAX_COPY_BYTES)
    (hk : k < d.selectors.length) (hact : d.selectors.getD k 0 = 1)
    (hin : d.src_addr + k < d.src_addr_end)
    (hbad : (d.from_tx = true ∧ tx.call_data.length ≤ d.src_addr + k) ∨
            (d.from_tx = false ∧
             step.rw_indices[consumed_before d.src_addr d.src_addr_end
               d.from_tx (d.selectors.take k) 0 + 1]?.bind
               (fun a => block_rws[a]?) = none)) :
    assign_exec_step block_rws tx step = none := by
  have hrec : reconstruct_go d.src_addr d.src_addr_end d.from_tx tx.call_data
      block_rws step.rw_indices d.selectors 0 0 = none := by
    apply reconstruct_go_fatal _ _ _ _ _ _ d.selectors 0 0 k hk hact
      (by omega)
    rcases hbad with ⟨hft, hcd⟩ | ⟨hft, hnone⟩
    · exact Or.inl ⟨hft, by omega⟩
    · refine Or.inr ⟨hft, ?_⟩
      have heq : (0 : Nat) + consumed_before d.src_addr d.src_addr_end
          d.from_tx (d.selectors.take k) 0 + 1 =
          consumed_before d.src_addr d.src_addr_end d.from_tx
            (d.selectors.take k) 0 + 1 := by omega
      rw [heq]
      exact hnone
  simp only [assign_exec_step, hd]
  rw [if_pos hlen, hrec]

/-- Witness for C8: a from-call-data row whose first position is active and
in-bound while the transaction call data is empty makes assignment abort. -/
theorem assign_fatal_on_malformed_trace_witness :
    assign_exec_step [] ⟨1, []⟩
      ⟨[0], 1, 0, 1024, 8, some ⟨0, 100, 1, 1, true, 1 :: List.replicate 70 0⟩⟩
      = none :=
  assign_fatal_on_malformed_trace [] ⟨1, []⟩
    ⟨[0], 1, 0, 1024, 8, some ⟨0, 100, 1, 1, true, 1 :: List.replicate 70 0⟩⟩
    ⟨0, 100, 1, 1, true, 1 :: List.replicate 70 0⟩ 0 rfl (by decide)
    (by decide) (by decide) (by decide) (Or.inl ⟨rfl, by decide⟩)

lemma reconstruct_go_total (src_addr src_addr_end : Nat) (ft : Bool)
    (call_data : List Nat) (rws : List RwEntry) (rw_indices : List Nat) :
    ∀ (sels : List Nat) (idx rw_idx : Nat),
    (∀ k, k < sels.length → sels.getD k 0 = 1 → src_addr + (idx + k) < src_addr_end →
      ((ft = true → src_addr + (idx + k) < call_data.length) ∧
       (ft = false → (rw_indices[rw_idx + consumed_before src_addr src_addr_end
         ft (sels.take k) idx + 1]?.bind (fun a => rws[a]?)).isSome))) →
    (reconstruct_go src_addr src_addr_end ft call_data rws rw_indices
      sels idx rw_idx).isSome := by
  intro sels
  induction sels with
  | nil =>
    intro idx rw_idx _
    simp [reconstruct_go]
  | cons s rest ih =>
    intro idx rw_idx h
    by_cases hs : s = 1 ∧ src_addr + idx < src_addr_end
    · cases ft with
      | true =>
        have hcd : src_addr + idx < call_data.length := by
          have := (h 0 (by simp) (by simpa using hs.1) (by simpa using hs.2)).1 rfl
          simpa using this
        rw [rg_cons_tx_ok _ _ _ _ _ _ _ _ _ hs hcd]
        have hrest := ih (idx + 1) (rw_idx + 1) ?_
        · obtain ⟨bs, hbs⟩ := Option.isSome_iff_exists.mp hrest
          rw [hbs]
          rfl
        · intro k hk hact hin
          have hstep := h (k + 1) (by simp only [List.length_cons]; omega)
            (by simpa using hact) (by omega)
          refine ⟨fun hft => ?_, fun hff => by cases hff⟩
          have := hstep.1 hft
          omega
      | false =>
        have hhead : (rw_indices[rw_idx + 1]?.bind (fun a => rws[a]?)).isSome := by
          have := (h 0 (by simp) (by simpa using hs.1) (by simpa using hs.2)).2 rfl
          simpa [consumed_before] using this
        obtain ⟨en, hen⟩ := Option.isSome_iff_exists.mp hhead
        rw [rg_cons_mem_ok _ _ _ _ _ _ _ _ _ _ hs hen]
        have hrest := ih (idx + 1) (rw_idx + 2) ?_
        · obtain ⟨bs, hbs⟩ := Option.isSome_iff_exists.mp hrest
          rw [hbs]
          rfl
        · intro k hk hact hin
          have hstep := h (k + 1) (by simp only [List.length_cons]; omega)
            (by simpa using hact) (by omega)
          refine ⟨fun hft => (by cases hft), fun _ => ?_⟩
          have hsome := hstep.2 rfl
          have heq : rw_idx + consumed_before src_addr src_addr_end false
              ((s :: rest).take (k + 1)) idx + 1 =
              rw_idx + 2 + consumed_before src_addr src_addr_end false
                (rest.take k) (idx + 1) + 1 := by
            rw [List.take_succ_cons, consumed_before_cons]
            rw [if_pos ⟨hs.1, hs.2, rfl⟩, if_pos hs.1]
            omega
          rw [heq] at hsome
          exact hsome
    · rw [rg_cons_skip _ _ _ _ _ _ _ _ _ _ hs]
      have hrest := ih (idx + 1) (if s = 1 then rw_idx + 1 else rw_idx) ?_
      · obtain ⟨bs, hbs⟩ := Option.isSome_iff_exists.mp hrest
        rw [hbs]
        rfl
      · intro k hk hact hin
        have hstep := h (k + 1) (by simp only [List.length_cons]; omega)
          (by simpa using hact) (by omega)
        refine ⟨fun hft => ?_, fun hff => ?_⟩
        · have := hstep.1 hft
          omega
        · have hsome := hstep.2 hff
          have heq : rw_idx + consumed_before src_addr src_addr_end ft
              ((s :: rest).take (k + 1)) idx + 1 =
              (if s = 1 then rw_idx + 1 else rw_idx) +
                consumed_before src_addr src_addr_end ft
                  (rest.take k) (idx + 1) + 1 := by
            rw [List.take_succ_cons, consumed_before_cons]
            rw [if_neg (by tauto)]
            by_cases hs1 : s = 1
            · rw [if_pos hs1, if_pos hs1]
              omega
            · rw [if_neg hs1, if_neg hs1]
              omega
          rw [heq] at hsome
          exact hsome

/-- C10 counterexample: a step whose extra data is present and whose
selectors array has length 71 — the claimed precondition — still makes
`assign_exec_step` panic (here: a from-call-data row with an active in-bound
position and empty call data), so the function does not return Ok under that
precondition alone. -/
theorem assign_shape_precondition_insufficient :
    (⟨[0], 1, 0, 1024, 8, some ⟨0, 200, 1, 1, true, 1 :: List.replicate 70 0⟩⟩ :
      ExecStep).extra_data =
      some ⟨0, 200, 1, 1, true, 1 :: List.replicate 70 0⟩ ∧
    (⟨0, 200, 1, 1, true, 1 :: List.replicate 70 0⟩ :
      CopyToMemoryData).selectors.length = MAX_COPY_BYTES ∧
    assign_exec_step [] ⟨3, []⟩
      ⟨[0], 1, 0, 1024, 8, some ⟨0, 200, 1, 1, true, 1 :: List.replicate 70 0⟩⟩
      = none :=
  ⟨rfl, by decide, by decide⟩

/-- C10 (amended): when the step's extra data is a CopyToMemory record with a
length-71 selectors array, neither the `unwrap` nor the selectors-length
assertion can fire, and `assign_exec_step` returns Ok provided additionally
every active in-bound position finds its datum: its call-data index is below
the call-data length when the source is call data, and the global-log entry
at its consumption index exists when the source is memory. -/
theorem assign_ok_under_precondition (block_rws : List RwEntry)
    (tx : Transaction) (step : ExecStep) (d : CopyToMemoryData)
    (hd : step.extra_data = some d) (hlen : d.selectors.length = MAX_COPY_BYTES)
    (hdata : ∀ k, k < d.selectors.length → d.selectors.getD k 0 = 1 →
      d.src_addr + k < d.src_addr_end →
      ((d.from_tx = true → d.src_addr + k < tx.call_data.length) ∧
       (d.from_tx = false →
        (step.rw_indices[consumed_before d.src_addr d.src_addr_end d.from_tx
          (d.selectors.take k) 0 + 1]?.bind
          (fun a => block_rws[a]?)).isSome))) :
    (assign_exec_step block_rws tx step).isSome := by
  have hrec := reconstruct_go_total d.src_addr d.src_addr_end d.from_tx
    tx.call_data block_rws step.rw_indices d.selectors 0 0 ?_
  · obtain ⟨bs, hbs⟩ := Option.isSome_iff_exists.mp hrec
    simp only [assign_exec_step, hd]
    rw [if_pos hlen, hbs]
    rfl
  · intro k hk hact hin
    have hstep := hdata k hk hact (by omega)
    refine ⟨fun hft => ?_, fun hff => ?_⟩
    · have := hstep.1 hft
      omega
    · have hsome := hstep.2 hff
      have heq : (0 : Nat) + consumed_before d.src_addr d.src_addr_end
          d.from_tx (d.selectors.take k) 0 + 1 =
          consumed_before d.src_addr d.src_addr_end d.from_tx
            (d.selectors.take k) 0 + 1 := by omega
      rw [heq]
      exact hsome

/-- Witness for the amended C10: a well-formed from-memory row (one active
in-bound position, read and write log entries present) is assigned
successfully. -/
theorem assign_ok_under_precondition_witness :
    (assign_exec_step [⟨1, false, 1, 0, 5⟩, ⟨2, true, 1, 100, 7⟩] ⟨2, []⟩
      ⟨[0, 1], 1, 0, 1024, 8,
        some ⟨0, 100, 1, 1, false, 1 :: List.replicate 70 0⟩⟩).isSome :=
  assign_ok_under_precondition [⟨1, false, 1, 0, 5⟩, ⟨2, true, 1, 100, 7⟩]
    ⟨2, []⟩
    ⟨[0, 1], 1, 0, 1024, 8, some ⟨0, 100, 1, 1, false, 1 :: List.replicate 70 0⟩⟩
    ⟨0, 100, 1, 1, false, 1 :: List.replicate 70 0⟩ rfl (by decide) (by decide)

/-- C9: the `tx_id` cell is always assigned from the enclosing transaction's
`id` — the CopyToMemory extra-data record carries no tx-id field, so any
successful assignment writes `tx.id` whatever the auxiliary data (in
particular also when `from_tx` is false). -/
theorem assign_tx_id_from_transaction (block_rws : List RwEntry)
    (tx : Transaction) (step : ExecStep) (row : AssignedRow)
    (h : assign_exec_step block_rws tx step = some row) :
    row.tx_id = tx.id := by
  unfold assign_exec_step at h
  cases hd : step.extra_data with
  | none =>
    rw [hd] at h
    cases h
  | some d =>
    rw [hd] at h
    simp only [] at h
    by_cases hlen : d.selectors.length = MAX_COPY_BYTES
    · rw [if_pos hlen] at h
      cases hr : reconstruct_go d.src_addr d.src_addr_end d.from_tx
          tx.call_data block_rws step.rw_indices d.selectors 0 0 with
      | none =>
        rw [hr] at h
        cases h
      | some bytes =>
        rw [hr] at h
        injection h with h2
        rw [← h2]
    · rw [if_neg hlen] at h
      cases h

/-- Witness for C9: a from-memory row (so `from_tx` is false) is assigned
`tx_id = 2`, the enclosing transaction's id. -/
theorem assign_tx_id_from_transaction_witness :
    assign_exec_step [] ⟨2, []⟩
      ⟨[], 1, 0, 1024, 8, some ⟨0, 100, 0, 1, false, List.replicate 71 0⟩⟩ =
      some ⟨0, 100, 0, 1, 0, 2, List.replicate 71 0, List.replicate 71 0, 0⟩ ∧
    (⟨0, 100, 0, 1, 0, 2, List.replicate 71 0, List.replicate 71 0, 0⟩ :
      AssignedRow).tx_id = (⟨2, []⟩ : Transaction).id :=
  ⟨by decide,
   assign_tx_id_from_transaction [] ⟨2, []⟩
     ⟨[], 1, 0, 1024, 8, some ⟨0, 100, 0, 1, false, List.replicate 71 0⟩⟩
     ⟨0, 100, 0, 1, 0, 2, List.replicate 71 0, List.replicate 71 0, 0⟩
     (by decide)⟩

/-- C1 (code bug): on a one-active-position from-memory row whose consumed
log slice is the emission-ordered pair (read entry with byte 5, then write
entry with byte 7), the source's reconstruction pre-increments the shared
index and takes the byte from the write entry (7), while the spec's replay
takes it from the read entry (5); `assign_exec_step` therefore stores 7. -/
theorem reconstruct_consumes_write_entry :
    reconstruct_go 0 1 false [] [⟨1, false, 1, 0, 5⟩, ⟨2, true, 1, 100, 7⟩]
      [0, 1] (1 :: List.replicate 70 0) 0 0 =
      some (7 :: List.replicate 70 0) ∧
    spec_replay_go 0 1 false [] [⟨1, false, 1, 0, 5⟩, ⟨2, true, 1, 100, 7⟩]
      [0, 1] (1 :: List.replicate 70 0) 0 0 =
      some (5 :: List.replicate 70 0) ∧
    (assign_exec_step [⟨1, false, 1, 0, 5⟩, ⟨2, true, 1, 100, 7⟩] ⟨1, []⟩
      ⟨[0, 1], 1, 0, 1024, 8,
        some ⟨0, 100, 1, 1, false, 1 :: List.replicate 70 0⟩⟩).map
      AssignedRow.bytes = some (7 :: List.replicate 70 0) :=
  ⟨by decide, by decide, by decide⟩

/-- A row witness with one active in-bound position (`copied_size = 1`) and
`bytes_left = 0`, with both comparator outputs 0. -/
def overCopyRow : ZRow :=
  { src_addr := 0, dst_addr := 0, bytes_left := 0, src_addr_end := 71,
    from_tx := 0, tx_id := 0,
    selectors := fun i => if i.val = 0 then 1 else 0,
    bytes := fun _ => 0,
    readFlag := fun i => if i.val = 0 then 1 else 0,
    lt := 0, finished := 0 }

/-- C2 (code bug): the emitted product constraint `lt * finished = 0` does
not make `copied_size > bytes_left` unsatisfiable — `overCopyRow` satisfies
the buffer-reader, comparator, booleanity and product constraints while its
copied size 1 exceeds `bytes_left = 0` (the sound form of the annotated
intent `num_bytes <= bytes_left` would be `(1 - lt) * (1 - finished) = 0`). -/
theorem finish_constraint_permits_overcopy :
    bufferReaderOk overCopyRow ∧ comparatorOk overCopyRow ∧
    fromTxBool overCopyRow ∧ finishConstraint overCopyRow ∧
    overCopyRow.bytes_left < numBytes overCopyRow := by
  refine ⟨⟨?_, ?_, ?_⟩, ⟨?_, ?_⟩, Or.inl rfl, ?_, ?_⟩
  · decide
  · decide
  · decide
  · decide
  · decide
  · show overCopyRow.lt * overCopyRow.finished = 0
    decide
  · decide

/-- C3: when `finished = 0` the continuation constraints force the next row
to be a CopyToMemory row satisfying all six chaining equalities
(`next.bytes_left = bytes_left - copied_size` included); when `finished = 1`
the constraint set is satisfied by any next row, imposing nothing. -/
theorem continuation_constraints_spec (w : ZRow) (n : ZNext) :
    (w.finished = 0 → continuationOk w n →
      (n.is_copy_to_memory = 1 ∧
       n.src_addr = w.src_addr + numBytes w ∧
       n.dst_addr = w.dst_addr + numBytes w ∧
       n.bytes_left = w.bytes_left - numBytes w ∧
       n.src_addr_end = w.src_addr_end ∧
       n.from_tx = w.from_tx ∧
       n.tx_id = w.tx_id)) ∧
    (w.finished = 1 → continuationOk w n) := by
  constructor
  · intro hf hc
    obtain ⟨h1, h2, h3, h4, h5, h6, h7⟩ := hc
    rw [hf] at h1 h2 h3 h4 h5 h6 h7
    simp only [sub_zero, one_mul] at h1 h2 h3 h4 h5 h6 h7
    refine ⟨by omega, by omega, by omega, by omega, by omega, by omega, by omega⟩
  · intro hf
    rw [continuationOk, hf]
    norm_num

/-- An unfinished one-active-position row for exercising the chaining
constraints. -/
def chainRow : ZRow :=
  { src_addr := 2, dst_addr := 3, bytes_left := 5, src_addr_end := 10,
    from_tx := 0, tx_id := 4,
    selectors := fun i => if i.val = 0 then 1 else 0,
    bytes := fun _ => 0,
    readFlag := fun i => if i.val = 0 then 1 else 0,
    lt := 1, finished := 0 }

/-- A finished row for exercising the absence of continuation constraints. -/
def doneRow : ZRow :=
  { src_addr := 2, dst_addr := 3, bytes_left := 1, src_addr_end := 10,
    from_tx := 0, tx_id := 4,
    selectors := fun i => if i.val = 0 then 1 else 0,
    bytes := fun _ => 0,
    readFlag := fun i => if i.val = 0 then 1 else 0,
    lt := 0, finished := 1 }

/-- Witness for C3: a satisfying unfinished row forces the chained next row
(tag set, all six equalities), while a finished row accepts an arbitrary,
unrelated next row. -/
theorem continuation_constraints_spec_witness :
    ((⟨1, 3, 4, 4, 10, 0, 4⟩ : ZNext).is_copy_to_memory = 1 ∧
     (⟨1, 3, 4, 4, 10, 0, 4⟩ : ZNext).src_addr = chainRow.src_addr + numBytes chainRow ∧
     (⟨1, 3, 4, 4, 10, 0, 4⟩ : ZNext).dst_addr = chainRow.dst_addr + numBytes chainRow ∧
     (⟨1, 3, 4, 4, 10, 0, 4⟩ : ZNext).bytes_left = chainRow.bytes_left - numBytes chainRow ∧
     (⟨1, 3, 4, 4, 10, 0, 4⟩ : ZNext).src_addr_end = chainRow.src_addr_end ∧
     (⟨1, 3, 4, 4, 10, 0, 4⟩ : ZNext).from_tx = chainRow.from_tx ∧
     (⟨1, 3, 4, 4, 10, 0, 4⟩ : ZNext).tx_id = chainRow.tx_id) ∧
    continuationOk doneRow ⟨0, 99, 98, 97, 96, 95, 94⟩ :=
  ⟨(continuation_constraints_spec chainRow ⟨1, 3, 4, 4, 10, 0, 4⟩).1 rfl
     (by refine ⟨?_, ?_, ?_, ?_, ?_, ?_, ?_⟩ <;> decide),
   (continuation_constraints_spec doneRow ⟨0, 99, 98, 97, 96, 95, 94⟩).2 rfl⟩

/-- C4: an active position whose absolute source address is at or beyond
`src_addr_end` has byte value 0, emits no source-read assertion, and still
emits the destination write assertion with value 0; moreover a source-read
assertion is emitted exactly when `read_flag` holds. -/
theorem boundary_policy_spec (w : ZRow) (i : Fin MAX_COPY_BYTES)
    (hbr : bufferReaderOk w) (hft : fromTxBool w)
    (hact : w.selectors i = 1)
    (hoob : w.src_addr_end ≤ w.src_addr + (i.val : Int)) :
    w.bytes i = 0 ∧
    ¬ sourceReadEmitted w i ∧
    posAssertions w i = [Assertion.memWrite (w.dst_addr + (i.val : Int)) 0] ∧
    (∀ j : Fin MAX_COPY_BYTES, sourceReadEmitted w j ↔ w.readFlag j = 1) := by
  obtain ⟨hbool, hrf, hzero⟩ := hbr
  have hrfi : w.readFlag i = 0 := by
    rw [hrf i, if_neg]
    intro hcond
    exact absurd hcond.2 (not_lt.mpr hoob)
  have hbi := hzero i hrfi
  refine ⟨hbi, ?_, ?_, ?_⟩
  · rw [sourceReadEmitted, hrfi]
    push_neg
    constructor <;> ring_nf
  · rw [posAssertions, hrfi, hbi]
    simp [hact]
  · intro j
    have hrfj : w.readFlag j = 0 ∨ w.readFlag j = 1 := by
      rw [hrf j]
      by_cases hc : w.selectors j = 1 ∧ w.src_addr + (j.val : Int) < w.src_addr_end
      · exact Or.inr (if_pos hc)
      · exact Or.inl (if_neg hc)
    constructor
    · intro hj
      rcases hrfj with h0 | h1
      · exfalso
        unfold sourceReadEmitted at hj
        rw [h0] at hj
        rcases hj with hj | hj <;> simp at hj
      · exact h1
    · intro hj1
      rcases hft with hf | hf
      · exact Or.inl (by rw [hf, hj1]; norm_num)
      · exact Or.inr (by rw [hf, hj1]; norm_num)

/-- A row whose position 0 is active but out of bound
(`src_addr = 5 >= src_addr_end = 3`). -/
def oobRow : ZRow :=
  { src_addr := 5, dst_addr := 20, bytes_left := 1, src_addr_end := 3,
    from_tx := 0, tx_id := 0,
    selectors := fun i => if i.val = 0 then 1 else 0,
    bytes := fun _ => 0,
    readFlag := fun _ => 0,
    lt := 0, finished := 1 }

/-- Witness for C4: on `oobRow` position 0 carries byte 0, emits no source
read, and emits exactly the zero-valued write at `dst_addr`. -/
theorem boundary_policy_spec_witness :
    oobRow.bytes 0 = 0 ∧
    ¬ sourceReadEmitted oobRow 0 ∧
    posAssertions oobRow 0 =
      [Assertion.memWrite (oobRow.dst_addr + (((0 : Fin MAX_COPY_BYTES)).val : Int)) 0] ∧
    (sourceReadEmitted oobRow 1 ↔ oobRow.readFlag 1 = 1) := by
  have h := boundary_policy_spec oobRow 0 (by refine ⟨?_, ?_, ?_⟩ <;> decide)
    (Or.inl rfl) (by decide) (by decide)
  exact ⟨h.1, h.2.1, h.2.2.1, h.2.2.2 1⟩

lemma sum_indicator_card (f : Fin MAX_COPY_BYTES → Int)
    (hf : ∀ i, f i = 0 ∨ f i = 1) :
    ∑ i : Fin MAX_COPY_BYTES, f i =
      ((Finset.univ.filter (fun i => f i = 1)).card : Int) := by
  have hrw : ∀ i, f i = if f i = 1 then (1 : Int) else 0 := by
    intro i
    rcases hf i with h | h <;> simp [h]
  rw [Finset.sum_congr rfl (fun i _ => hrw i)]
  exact Finset.sum_boole _ _

/-- C5: for a satisfying witness, the step-state transition constrains the
shared rw counter to advance by exactly the number of log assertions emitted
this row — the number of in-bound source reads (`read_flag` positions) plus
the number of destination writes (active positions) — and leaves every other
shared step-state field unchanged. -/
theorem step_state_transition_spec (w : ZRow) (cur next : StepState)
    (hbr : bufferReaderOk w) (hft : fromTxBool w)
    (ht : stepTransitionOk w cur next) :
    next.rw_counter = cur.rw_counter +
      (((Finset.univ.filter (fun i => w.readFlag i = 1)).card : Int) +
       ((Finset.univ.filter (fun i => w.selectors i = 1)).card : Int)) ∧
    next.rw_counter = cur.rw_counter +
      ∑ i : Fin MAX_COPY_BYTES, ((posAssertions w i).length : Int) ∧
    next.program_counter = cur.program_counter ∧
    next.stack_pointer = cur.stack_pointer ∧
    next.call_id = cur.call_id ∧
    next.memory_size = cur.memory_size := by
  obtain ⟨hbool, hrf, _⟩ := hbr
  have hrfb : ∀ i, w.readFlag i = 0 ∨ w.readFlag i = 1 := by
    intro i
    rw [hrf i]
    by_cases hc : w.selectors i = 1 ∧ w.src_addr + (i.val : Int) < w.src_addr_end
    · exact Or.inr (if_pos hc)
    · exact Or.inl (if_neg hc)
  have hdelta : rwCounterDelta w =
      ∑ i : Fin MAX_COPY_BYTES, (w.readFlag i + w.selectors i) := by
    rw [rwCounterDelta]
    refine Finset.sum_congr rfl (fun i _ => ?_)
    ring
  have hcards : rwCounterDelta w =
      ((Finset.univ.filter (fun i => w.readFlag i = 1)).card : Int) +
      ((Finset.univ.filter (fun i => w.selectors i = 1)).card : Int) := by
    rw [hdelta, Finset.sum_add_distrib, sum_indicator_card _ hrfb,
      sum_indicator_card _ hbool]
  have hlens : rwCounterDelta w =
      ∑ i : Fin MAX_COPY_BYTES, ((posAssertions w i).length : Int) := by
    rw [rwCounterDelta]
    refine Finset.sum_congr rfl (fun i _ => ?_)
    rcases hft with hf | hf <;> rcases hrfb i with h | h <;>
      rcases hbool i with hs | hs <;>
      simp [posAssertions, hf, h, hs]
  exact ⟨by rw [ht.1, hcards], by rw [ht.1, hlens], ht.2.1, ht.2.2.1,
    ht.2.2.2.1, ht.2.2.2.2⟩

/-- Witness for C5: on `chainRow` (one in-bound active position: one read,
one write) the constrained transition advances the rw counter from 10 to 12
and fixes the other fields. -/
theorem step_state_transition_spec_witness :
    (⟨12, 1, 2, 3, 4⟩ : StepState).rw_counter =
      (⟨10, 1, 2, 3, 4⟩ : StepState).rw_counter +
      (((Finset.univ.filter (fun i => chainRow.readFlag i = 1)).card : Int) +
       ((Finset.univ.filter (fun i => chainRow.selectors i = 1)).card : Int)) ∧
    (⟨12, 1, 2, 3, 4⟩ : StepState).program_counter =
      (⟨10, 1, 2, 3, 4⟩ : StepState).program_counter := by
  have h := step_state_transition_spec chainRow ⟨10, 1, 2, 3, 4⟩
    ⟨12, 1, 2, 3, 4⟩ (by refine ⟨?_, ?_, ?_⟩ <;> decide) (Or.inl rfl)
    (by refine ⟨?_, rfl, rfl, rfl, rfl⟩; show (12 : Int) = 10 + rwCounterDelta chainRow; decide)
  exact ⟨h.1, h.2.2.1⟩
